import Mathlib

/-!
Verification development for the MacroMeter meal-query resolution pipeline
(src/functions/index.js): the query segmenter `parseItems`, the per-item
resolver `searchFood` (bounded retry against the USDA search API), and the
HTTP handler that aggregates per-item results into one outcome.

Numbers are embedded as rationals; JavaScript `Math.round` is embedded as
`fun x => ⌊x + 1/2⌋`, which agrees with it on every finite value.  The
upstream HTTP environment is embedded as a function from the attempt index
to the response observed on that attempt.
-/

/-- The set of characters matched by the JavaScript regex class `\s`
(also the set removed by `String.prototype.trim`). -/
def isWsChar (c : Char) : Bool :=
  c = ' ' || c = '\t' || c = '\n' || c = '\x0b' || c = '\x0c' || c = '\r' ||
  c.val = 0xa0 || c.val = 0x1680 || (0x2000 ≤ c.val && c.val ≤ 0x200a) ||
  c.val = 0x2028 || c.val = 0x2029 || c.val = 0x202f || c.val = 0x205f ||
  c.val = 0x3000 || c.val = 0xfeff

/-- JavaScript line terminators, the characters NOT matched by `.` in a regex. -/
def isLineTerm (c : Char) : Bool :=
  c = '\n' || c = '\r' || c.val = 0x2028 || c.val = 0x2029

theorem isWsChar_of_isLineTerm {c : Char} (h : isLineTerm c = true) : isWsChar c = true := by
  simp only [isLineTerm, isWsChar, Bool.or_eq_true] at h ⊢
  tauto

/-- One parsed item: `{qty, text}` as produced by `parseItems` (index.js line 27). -/
structure Item where
  qty : ℚ
  text : String
  deriving DecidableEq, Repr

/-- Scanner for `query.split(/,| and /i)` (index.js line 10): at each position the
regex matches either a comma or the literal text of a space, the letters a, n, d in
either case, and a space; the leftmost match splits the string, and scanning
resumes after the separator. `acc` holds the current fragment in reverse.  The
scanner consumes at least one character per step, so it is driven by a fuel
argument initialised to the length of the input; fuel can run out only on an
input longer than the initial fuel. -/
def splitGoF : ℕ → List Char → List Char → List (List Char)
  | _, [], acc => [acc.reverse]
  | fuel + 1, ',' :: rest, acc => acc.reverse :: splitGoF fuel rest []
  | fuel + 1, ' ' :: c1 :: c2 :: c3 :: ' ' :: rest, acc =>
    if c1.toLower = 'a' ∧ c2.toLower = 'n' ∧ c3.toLower = 'd' then
      acc.reverse :: splitGoF fuel rest []
    else
      splitGoF fuel (c1 :: c2 :: c3 :: ' ' :: rest) (' ' :: acc)
  | fuel + 1, c :: rest, acc => splitGoF fuel rest (c :: acc)
  | 0, cs, acc => [acc.reverse ++ cs]

/-- The split itself, with enough fuel for the whole input. -/
def splitChars (cs : List Char) : List (List Char) :=
  splitGoF cs.length cs []

/-- `String.prototype.trim`: strip leading and trailing whitespace. -/
def trimChars (cs : List Char) : List Char :=
  ((cs.dropWhile isWsChar).reverse.dropWhile isWsChar).reverse

/-- Value of a string of decimal digit characters. -/
def digitsToNat (ds : List Char) : ℕ :=
  ds.foldl (fun a c => a * 10 + (c.toNat - 48)) 0

/-- `parseFloat` on a string of digits, an optional dot and more digits,
embedded exactly (the source never produces values outside this grammar). -/
def numValue (ds fr : List Char) : ℚ :=
  (digitsToNat ds : ℚ) + (digitsToNat fr : ℚ) / (10 : ℚ) ^ fr.length

/-- The `\s+(.*)` half of the quantity regex (index.js line 17): require at
least one whitespace character, consume the whole greedy whitespace run, and
capture the remaining characters up to the first line terminator. -/
def tailText (rest : List Char) : Option (List Char) :=
  match rest with
  | [] => none
  | c :: _ =>
    if isWsChar c then
      some ((rest.dropWhile isWsChar).takeWhile (fun d => !isLineTerm d))
    else
      none

/-- The optional-fraction step `(\.\d+)?` after the integer digits: a dot
followed by at least one digit extends the number, anything else backtracks
to the empty fraction.  Returns the fraction digits and the rest. -/
def fracSplit (rest1 : List Char) : List Char × List Char :=
  match rest1 with
  | '.' :: tl =>
    let fs := tl.takeWhile Char.isDigit
    if fs.isEmpty then ([], rest1) else (fs, tl.drop fs.length)
  | _ => ([], rest1)

/-- The regex match `part.match(/^(\d+(\.\d+)?|a|an)\s+(.*)/i)` together with the
quantity computation of index.js lines 17-24: a leading decimal number (greedy
digits, then an optional fraction requiring at least one digit), or the article
a or an (case-insensitive, the shorter alternative tried first), followed by
whitespace; returns the quantity and the captured remaining text. -/
def matchQty (cs : List Char) : Option (ℚ × List Char) :=
  let ds := cs.takeWhile Char.isDigit
  if ds.isEmpty then
    match cs with
    | [] => none
    | c :: tl =>
      if c.toLower = 'a' then
        match tailText tl with
        | some t => some (1, t)
        | none =>
          match tl with
          | [] => none
          | n :: tl2 =>
            if n.toLower = 'n' then
              match tailText tl2 with
              | some t => some (1, t)
              | none => none
            else none
      else none
  else
    let fr := fracSplit (cs.drop ds.length)
    match tailText fr.2 with
    | some t => some (numValue ds fr.1, t)
    | none => none

/-- Parse one trimmed fragment into an item (index.js lines 12-27). -/
def parseOne (cs : List Char) : Item :=
  match matchQty cs with
  | some qt => ⟨qt.1, String.mk qt.2⟩
  | none => ⟨1, String.mk cs⟩

/-- `parseItems` (index.js lines 8-29): split on commas and the word and,
trim each fragment, drop empty fragments, parse each fragment. -/
def parseItems (query : String) : List Item :=
  let parts := ((splitChars query.data).map trimChars).filter (fun f => !f.isEmpty)
  parts.map parseOne

/-- A further segmentation evaluation exercised by the handler proofs:
decimal quantities and comma separators. -/
theorem parseItems_decimal_example :
    parseItems "1.5 cups rice, an apple" = [⟨3 / 2, "cups rice"⟩, ⟨1, "apple"⟩] := by
  with_unfolding_all decide

/-! ## Item resolver: `searchFood` (index.js lines 34-89) -/

/-- One element of a `foodNutrients` array; `value` is `none` when the JSON
field is absent or null. -/
structure Nutrient where
  nutrientName : String
  value : Option ℚ
  deriving DecidableEq, Repr

/-- One element of the `foods` array; `foodNutrients` is `none` when absent. -/
structure Food where
  description : String
  foodNutrients : Option (List Nutrient)
  deriving DecidableEq, Repr

/-- A parsed successful response body; `foods` is `none` when the JSON body
has no `foods` array. -/
structure Body where
  foods : Option (List Food)
  deriving DecidableEq, Repr

/-- What one fetch attempt observes: a response with a non-success status, a
thrown network error, or a success-status response with a parsed JSON body. -/
inductive Response where
  | httpError
  | netError
  | ok (body : Body)
  deriving DecidableEq, Repr

/-- Whether a response takes one of the two transient-failure paths
(index.js lines 46-54 and 79-86). -/
def isTransient : Response → Bool
  | .httpError => true
  | .netError => true
  | .ok _ => false

/-- The nutrient name-to-value map built by the loop at index.js lines 61-64:
`nutrients[n.nutrientName] = n.value || 0`, later assignments overwriting
earlier ones. -/
def buildNutrients (ns : List Nutrient) : String → Option ℚ :=
  ns.foldl (fun m n => fun k => if k = n.nutrientName then some (n.value.getD 0) else m k)
    (fun _ => none)

/-- JavaScript `x || y` on a looked-up nutrient value: the fallback is used
when the lookup is undefined or its value is 0 (falsy). -/
def jsOrQ (x : Option ℚ) (y : ℚ) : ℚ :=
  match x with
  | some v => if v = 0 then y else v
  | none => y

/-- The result object built at index.js lines 66-72. -/
structure NutrientResult where
  name : String
  calories : ℚ
  protein : ℚ
  carbs : ℚ
  fat : ℚ
  deriving DecidableEq, Repr

/-- Extraction of a `NutrientResult` from the first candidate food
(index.js lines 60-72). -/
def extractFood (food : Food) : NutrientResult :=
  let m := buildNutrients (food.foodNutrients.getD [])
  { name := food.description
    calories := jsOrQ (m "Energy") (jsOrQ (m "Energy (Atwater General Factors)") 0)
    protein := jsOrQ (m "Protein") 0
    carbs := jsOrQ (m "Carbohydrate, by difference") 0
    fat := jsOrQ (m "Total lipid (fat)") 0 }

/-- The retry loop of `searchFood` (index.js lines 41-88), over an environment
mapping each attempt index to the response observed on that attempt.
`remaining` is the number of retries still allowed (`retries - attempt` in the
source, where the loop continues only while `attempt < retries`).  Returns the
result together with the list of backoff pauses performed, in milliseconds. -/
def searchFoodGo (env : ℕ → Response) : ℕ → ℕ → Option NutrientResult × List ℕ
  | attempt, remaining =>
    match env attempt with
    | .ok body =>
      match body.foods.getD [] with
      | [] => (none, [])
      | food :: _ => (some (extractFood food), [])
    | .httpError =>
      match remaining with
      | 0 => (none, [])
      | r + 1 =>
        ((searchFoodGo env (attempt + 1) r).1, 300 :: (searchFoodGo env (attempt + 1) r).2)
    | .netError =>
      match remaining with
      | 0 => (none, [])
      | r + 1 =>
        ((searchFoodGo env (attempt + 1) r).1, 300 :: (searchFoodGo env (attempt + 1) r).2)

/-- `searchFood(apiKey, itemText, retries)`: run the loop from attempt 0. -/
def searchFood (env : ℕ → Response) (retries : ℕ) : Option NutrientResult × List ℕ :=
  searchFoodGo env 0 retries

/-- The default value of the `retries` parameter (index.js line 34), the one
used by the handler at line 119. -/
def defaultRetries : ℕ := 2

/-- Value of the last entry with a given name in a `foodNutrients` list
(coerced through `|| 0`), `none` when the name never occurs: the reference
meaning of a name-to-value map whose later entries overwrite earlier ones. -/
def lastValue (ns : List Nutrient) (k : String) : Option ℚ :=
  match ns with
  | [] => none
  | n :: t =>
    match lastValue t k with
    | some v => some v
    | none => if k = n.nutrientName then some (n.value.getD 0) else none

theorem buildNutrients_foldl (ns : List Nutrient) :
    ∀ (m : String → Option ℚ) (k : String),
      (ns.foldl (fun m n => fun k => if k = n.nutrientName then some (n.value.getD 0) else m k)
        m) k = ((lastValue ns k).rec (m k) fun v => some v : Option ℚ) := by
  induction ns with
  | nil => intro m k; simp [lastValue]
  | cons n t ih =>
    intro m k
    simp only [List.foldl_cons, lastValue]
    rw [ih]
    cases lastValue t k with
    | some v => simp
    | none =>
      by_cases hk : k = n.nutrientName <;> simp [hk]

/-- The built map holds, for each name, exactly the coerced value of the last
entry with that name. -/
theorem buildNutrients_eq_lastValue (ns : List Nutrient) (k : String) :
    buildNutrients ns k = lastValue ns k := by
  unfold buildNutrients
  rw [buildNutrients_foldl]
  cases lastValue ns k <;> simp

theorem lastValue_cons (m : Nutrient) (t : List Nutrient) (k : String) :
    lastValue (m :: t) k =
      match lastValue t k with
      | some v => some v
      | none => if k = m.nutrientName then some (m.value.getD 0) else none := rfl

theorem lastValue_append_singleton (pre : List Nutrient) (n : Nutrient) (k : String) :
    lastValue (pre ++ [n]) k =
      if k = n.nutrientName then some (n.value.getD 0) else lastValue pre k := by
  induction pre with
  | nil =>
    by_cases hk : k = n.nutrientName <;> simp [lastValue, hk]
  | cons p t ih =>
    rw [List.cons_append, lastValue_cons p (t ++ [n]) k, lastValue_cons p t k, ih]
    by_cases hk : k = n.nutrientName
    · simp only [if_pos hk]
    · simp only [if_neg hk]

theorem jsOrQ_getD (x : Option ℚ) : jsOrQ x 0 = x.getD 0 := by
  cases x with
  | none => rfl
  | some v => by_cases hv : v = 0 <;> simp [jsOrQ, hv]

/-! ## Aggregating handler (index.js lines 110-148) -/

/-- `Math.round`: round to the nearest integer, ties toward positive
infinity; on every finite value this is the floor of the value plus one half. -/
def jsRound (x : ℚ) : ℤ := ⌊x + 1 / 2⌋

/-- The `totalNutrients` accumulator object (index.js line 113). -/
structure Totals where
  calories : ℚ
  protein : ℚ
  carbs : ℚ
  fat : ℚ
  deriving DecidableEq, Repr

/-- The display form of one found item, `"<qty> x <name>"` (index.js line 122);
quantity rendering differs from JavaScript number formatting on non-integers,
which no claim depends on. -/
def formatFound (q : ℚ) (name : String) : String :=
  toString q ++ " x " ++ name

/-- The JSON value the handler returns: either the total-failure object
`{found:false, error}` (line 133) or the success object of line 139, whose
`found` field is true. `partialFlag` stands for the source field `partial`,
which is not a legal identifier here. -/
inductive AggResponse where
  | failure (error : String)
  | success (name : String) (calories protein carbs fat : ℤ)
      (partialFlag : Bool) (missing : List String)
  deriving DecidableEq, Repr

def AggResponse.found : AggResponse → Bool
  | .failure _ => false
  | .success .. => true

def AggResponse.calories? : AggResponse → Option ℤ
  | .failure _ => none
  | .success _ c _ _ _ _ _ => some c

def AggResponse.protein? : AggResponse → Option ℤ
  | .failure _ => none
  | .success _ _ p _ _ _ _ => some p

def AggResponse.carbs? : AggResponse → Option ℤ
  | .failure _ => none
  | .success _ _ _ k _ _ _ => some k

def AggResponse.fat? : AggResponse → Option ℤ
  | .failure _ => none
  | .success _ _ _ _ f _ _ => some f

def AggResponse.partialFlag? : AggResponse → Option Bool
  | .failure _ => none
  | .success _ _ _ _ _ p _ => some p

def AggResponse.missing? : AggResponse → Option (List String)
  | .failure _ => none
  | .success _ _ _ _ _ _ m => some m

/-- The sequential per-item loop (index.js lines 118-130).  The resolver is an
oracle from the position of the item in the query and its text to the outcome
of that call, so every assignment of per-call outcomes is covered.  `tot`,
`found` and `missing` are the accumulators `totalNutrients`, `foundItems`,
`notFoundItems`. -/
def runItems (resolve : ℕ → String → Option NutrientResult) :
    ℕ → List Item → Totals → List String → List String →
    Totals × List String × List String
  | _, [], tot, found, missing => (tot, found, missing)
  | i, it :: rest, tot, found, missing =>
    match resolve i it.text with
    | some r =>
      runItems resolve (i + 1) rest
        ⟨tot.calories + r.calories * it.qty, tot.protein + r.protein * it.qty,
         tot.carbs + r.carbs * it.qty, tot.fat + r.fat * it.qty⟩
        (found ++ [formatFound it.qty r.name]) missing
    | none =>
      runItems resolve (i + 1) rest tot found (missing ++ [it.text])

/-- The handler body for a present query (index.js lines 110-148): parse the
query, resolve the items sequentially, and build the terminal response. -/
def handle (rawQuery : String) (resolve : ℕ → String → Option NutrientResult) : AggResponse :=
  let items := parseItems rawQuery
  match runItems resolve 0 items ⟨0, 0, 0, 0⟩ [] [] with
  | (tot, found, missing) =>
    if found.isEmpty then
      AggResponse.failure ("No results for \x27" ++ rawQuery ++ "\x27")
    else
      AggResponse.success (String.intercalate ", " found)
        (jsRound tot.calories) (jsRound tot.protein) (jsRound tot.carbs) (jsRound tot.fat)
        (!missing.isEmpty) missing

/-! Reference descriptions of what the loop accumulates, stated the way the
specification states them: sums, found names and missing texts over the items
paired with their call indices. -/

/-- Per-field resolved contributions, in item order: for each resolved item,
its quantity times the per-unit field value. -/
def resolvedContribs (resolve : ℕ → String → Option NutrientResult)
    (items : List Item) (f : NutrientResult → ℚ) : List ℚ :=
  items.enum.filterMap fun p => (resolve p.1 p.2.text).map fun r => p.2.qty * f r

/-- The original texts of the items that did not resolve, in original order. -/
def missingTexts (resolve : ℕ → String → Option NutrientResult)
    (items : List Item) : List String :=
  (items.enum.filter fun p => (resolve p.1 p.2.text).isNone).map fun p => p.2.text

/-- At least one item resolved. -/
def anyResolved (resolve : ℕ → String → Option NutrientResult) (items : List Item) : Prop :=
  ∃ p ∈ items.enum, (resolve p.1 p.2.text).isSome = true

/-- Every item resolved. -/
def allResolved (resolve : ℕ → String → Option NutrientResult) (items : List Item) : Prop :=
  ∀ p ∈ items.enum, (resolve p.1 p.2.text).isSome = true

instance (resolve : ℕ → String → Option NutrientResult) (items : List Item) :
    Decidable (anyResolved resolve items) :=
  List.decidableBEx _ _

instance (resolve : ℕ → String → Option NutrientResult) (items : List Item) :
    Decidable (allResolved resolve items) :=
  List.decidableBAll _ _

/-- Recursive forms of the three accumulations, indexed from `i`. -/
def sumF (resolve : ℕ → String → Option NutrientResult)
    (f : NutrientResult → ℚ) : ℕ → List Item → ℚ
  | _, [] => 0
  | i, it :: rest =>
    match resolve i it.text with
    | some r => f r * it.qty + sumF resolve f (i + 1) rest
    | none => sumF resolve f (i + 1) rest

def foundNames (resolve : ℕ → String → Option NutrientResult) : ℕ → List Item → List String
  | _, [] => []
  | i, it :: rest =>
    match resolve i it.text with
    | some r => formatFound it.qty r.name :: foundNames resolve (i + 1) rest
    | none => foundNames resolve (i + 1) rest

def missingFrom (resolve : ℕ → String → Option NutrientResult) : ℕ → List Item → List String
  | _, [] => []
  | i, it :: rest =>
    match resolve i it.text with
    | some _ => missingFrom resolve (i + 1) rest
    | none => it.text :: missingFrom resolve (i + 1) rest

theorem runItems_eq (resolve : ℕ → String → Option NutrientResult) :
    ∀ (items : List Item) (i : ℕ) (tot : Totals) (found missing : List String),
      runItems resolve i items tot found missing =
        (⟨tot.calories + sumF resolve (fun r => r.calories) i items,
          tot.protein + sumF resolve (fun r => r.protein) i items,
          tot.carbs + sumF resolve (fun r => r.carbs) i items,
          tot.fat + sumF resolve (fun r => r.fat) i items⟩,
         found ++ foundNames resolve i items,
         missing ++ missingFrom resolve i items) := by
  intro items
  induction items with
  | nil => intro i tot found missing; simp [runItems, sumF, foundNames, missingFrom]
  | cons it rest ih =>
    intro i tot found missing
    cases h : resolve i it.text with
    | some r =>
      simp only [runItems, sumF, foundNames, missingFrom, h]
      rw [ih]
      refine congrArg₂ Prod.mk ?_ (congrArg₂ Prod.mk ?_ rfl)
      · simp only [Totals.mk.injEq]
        exact ⟨by ring, by ring, by ring, by ring⟩
      · simp
    | none =>
      simp only [runItems, sumF, foundNames, missingFrom, h]
      rw [ih]
      simp

theorem foundNames_eq_nil_iff (resolve : ℕ → String → Option NutrientResult) :
    ∀ (items : List Item) (i : ℕ),
      foundNames resolve i items = [] ↔
        ∀ p ∈ List.enumFrom i items, resolve p.1 p.2.text = none := by
  intro items
  induction items with
  | nil => intro i; simp [foundNames]
  | cons it rest ih =>
    intro i
    simp only [foundNames, List.enumFrom, List.mem_cons]
    cases h : resolve i it.text with
    | some r =>
      simp only [List.cons_ne_nil, false_iff]
      intro hall
      have := hall (i, it) (Or.inl rfl)
      simp only at this
      rw [h] at this
      exact Option.noConfusion this
    | none =>
      rw [ih]
      constructor
      · intro hall p hp
        rcases hp with hp | hp
        · subst hp; exact h
        · exact hall p hp
      · intro hall p hp
        exact hall p (Or.inr hp)

theorem missingFrom_eq (resolve : ℕ → String → Option NutrientResult) :
    ∀ (items : List Item) (i : ℕ),
      missingFrom resolve i items =
        ((List.enumFrom i items).filter fun p => (resolve p.1 p.2.text).isNone).map
          fun p => p.2.text := by
  intro items
  induction items with
  | nil => intro i; simp [missingFrom]
  | cons it rest ih =>
    intro i
    simp only [missingFrom, List.enumFrom]
    cases h : resolve i it.text with
    | some r => simp [List.filter_cons, h, ih (i + 1)]
    | none => simp [List.filter_cons, h, ih (i + 1)]

theorem sumF_eq (resolve : ℕ → String → Option NutrientResult) (f : NutrientResult → ℚ) :
    ∀ (items : List Item) (i : ℕ),
      sumF resolve f i items =
        ((List.enumFrom i items).filterMap fun p =>
          (resolve p.1 p.2.text).map fun r => p.2.qty * f r).sum := by
  intro items
  induction items with
  | nil => intro i; simp [sumF]
  | cons it rest ih =>
    intro i
    simp only [sumF, List.enumFrom, List.filterMap_cons]
    cases h : resolve i it.text with
    | some r => simp [h, ih (i + 1), mul_comm]
    | none => simp [h, ih (i + 1)]

theorem enum_eq_enumFrom (l : List Item) : l.enum = List.enumFrom 0 l := rfl

/-! ## Structural facts about the segmenter -/

theorem head?_dropWhile_false (p : Char → Bool) (l : List Char) (a : Char)
    (h : (l.dropWhile p).head? = some a) : p a = false := by
  have hw := List.head?_dropWhile_not p l
  rw [h] at hw
  exact hw

theorem mem_dropWhile_of_neg (p : Char → Bool) :
    ∀ (l : List Char) (a : Char), a ∈ l → p a = false → a ∈ l.dropWhile p := by
  intro l
  induction l with
  | nil => intro a ha; cases ha
  | cons x xs ih =>
    intro a ha hp
    rw [List.dropWhile_cons]
    by_cases hx : p x
    · simp only [hx, if_true]
      rcases List.mem_cons.mp ha with he | ht
      · subst he; rw [hx] at hp; exact Bool.noConfusion hp
      · exact ih a ht hp
    · simp only [hx, if_false]
      exact ha

/-- A trimmed fragment never ends in whitespace. -/
theorem trim_getLast_not_ws (cs : List Char) (c : Char)
    (h : (trimChars cs).getLast? = some c) : isWsChar c = false := by
  unfold trimChars at h
  rw [List.getLast?_reverse] at h
  exact head?_dropWhile_false _ _ _ h

theorem getLast?_drop_of_ne_nil : ∀ (l : List Char) (k : ℕ), l.drop k ≠ [] →
    (l.drop k).getLast? = l.getLast? := by
  intro l
  induction l with
  | nil => intro k h; simp at h
  | cons c t ih =>
    intro k h
    cases k with
    | zero => rfl
    | succ k =>
      rw [List.drop_succ_cons] at h ⊢
      rw [ih k h]
      cases t with
      | nil => simp at h
      | cons b bs => exact List.getLast?_cons_cons.symm

/-- No non-empty suffix of a trimmed fragment is all whitespace. -/
theorem trim_drop_all_ws (cs : List Char) (k : ℕ)
    (hne : (trimChars cs).drop k ≠ [])
    (hall : ∀ c ∈ (trimChars cs).drop k, isWsChar c = true) : False := by
  cases hlast : ((trimChars cs).drop k).getLast? with
  | none => exact hne (List.getLast?_eq_none_iff.mp hlast)
  | some c =>
    have hmem : c ∈ (trimChars cs).drop k := List.mem_of_getLast?_eq_some hlast
    have hws := hall c hmem
    have hl : (trimChars cs).getLast? = some c := by
      rw [← getLast?_drop_of_ne_nil _ k hne]; exact hlast
    have hnw := trim_getLast_not_ws cs c hl
    rw [hws] at hnw
    exact Bool.noConfusion hnw

/-- On any suffix of a trimmed fragment, a successful whitespace-then-text
match captures at least one character. -/
theorem tailText_on_trim (cs : List Char) (k : ℕ) (t : List Char)
    (h : tailText ((trimChars cs).drop k) = some t) : t ≠ [] := by
  rcases hs : (trimChars cs).drop k with _ | ⟨c, tl⟩
  · rw [hs] at h; exact Option.noConfusion h
  · rw [hs] at h
    simp only [tailText] at h
    by_cases hw : isWsChar c
    · rw [if_pos hw] at h
      injection h with h'
      subst h'
      cases hd : (c :: tl).dropWhile isWsChar with
      | nil =>
        have hall : ∀ x ∈ (c :: tl), isWsChar x = true := by
          intro x hx
          exact List.dropWhile_eq_nil_iff.mp hd x hx
        exact absurd (fun x hx => hall x (hs ▸ hx)) (fun ha => trim_drop_all_ws cs k (by rw [hs]; simp) ha)
      | cons d ds =>
        have hdw : isWsChar d = false := head?_dropWhile_false _ (c :: tl) d (by rw [hd]; rfl)
        have hlt : isLineTerm d = false := by
          cases hl : isLineTerm d
          · rfl
          · rw [isWsChar_of_isLineTerm hl] at hdw; exact Bool.noConfusion hdw
        simp [List.takeWhile_cons, hlt]
    · rw [if_neg hw] at h
      exact Option.noConfusion h

theorem numValue_nonneg (ds fr : List Char) : 0 ≤ numValue ds fr := by
  unfold numValue
  positivity

/-- The rest component of the fraction step applied to a suffix is again a
suffix. -/
theorem fracSplit_snd_drop (l : List Char) (k : ℕ) :
    ∃ m, (fracSplit (l.drop k)).2 = l.drop (k + m) := by
  simp only [fracSplit]
  split
  · rename_i tl heq
    split
    · exact ⟨0, by rw [Nat.add_zero]⟩
    · refine ⟨1 + (tl.takeWhile Char.isDigit).length, ?_⟩
      have h1 : tl = (l.drop k).tail := by rw [heq]; rfl
      simp only [h1, List.tail_drop, List.drop_drop]
      congr 1
      omega
  · exact ⟨0, by rw [Nat.add_zero]⟩

set_option maxHeartbeats 2000000 in
/-- On a trimmed fragment, a successful quantity match yields a non-negative
quantity and non-empty remaining text. -/
theorem matchQty_trim (cs : List Char) (q : ℚ) (t : List Char)
    (h : matchQty (trimChars cs) = some (q, t)) : 0 ≤ q ∧ t ≠ [] := by
  simp only [matchQty] at h
  split at h
  · -- no leading digits: article alternatives
    split at h
    · exact Option.noConfusion h
    · rename_i c tl heq
      split at h
      · -- first char is a or A
        split at h
        · -- the single-letter alternative matched
          rename_i t0 htt
          injection h with h'
          injection h' with hq ht
          subst hq; subst ht
          refine ⟨by norm_num, ?_⟩
          have htl : tl = (trimChars cs).drop 1 := by rw [heq]; rfl
          exact tailText_on_trim cs 1 t0 (by rw [← htl]; exact htt)
        · -- fall through to the two-letter alternative
          split at h
          · exact Option.noConfusion h
          · rename_i n tl2 heq2
            split at h
            · split at h
              · rename_i t0 htt
                injection h with h'
                injection h' with hq ht
                subst hq; subst ht
                refine ⟨by norm_num, ?_⟩
                have htl : tl2 = (trimChars cs).drop 2 := by rw [heq]; rfl
                exact tailText_on_trim cs 2 t0 (by rw [← htl]; exact htt)
              · exact Option.noConfusion h
            · exact Option.noConfusion h
      · exact Option.noConfusion h
  · -- leading digits
    split at h
    · rename_i t0 htt
      injection h with h'
      injection h' with hq ht
      subst hq; subst ht
      refine ⟨numValue_nonneg _ _, ?_⟩
      obtain ⟨m, hm⟩ := fracSplit_snd_drop (trimChars cs)
        ((trimChars cs).takeWhile Char.isDigit).length
      rw [hm] at htt
      exact tailText_on_trim cs _ t0 htt
    · exact Option.noConfusion h

/-- A character that can be consumed neither by a separator match nor by
trimming: not whitespace, not a comma, and not one of the letters of the
word and in either case. -/
def goodChar (c : Char) : Bool :=
  !isWsChar c && !(c = ',') && !(c.toLower = 'a') && !(c.toLower = 'n') && !(c.toLower = 'd')

theorem splitGoF_nil (fuel : ℕ) (acc : List Char) : splitGoF fuel [] acc = [acc.reverse] := by
  cases fuel <;> rfl

/-- Every run of the scanner on input holding a good character emits some
fragment holding a good character. -/
theorem splitGoF_good : ∀ (fuel : ℕ) (cs acc : List Char),
    cs.length ≤ fuel →
    ((∃ c ∈ cs, goodChar c = true) ∨ (∃ c ∈ acc, goodChar c = true)) →
    ∃ part ∈ splitGoF fuel cs acc, ∃ c ∈ part, goodChar c = true := by
  intro fuel cs acc
  induction fuel, cs, acc using splitGoF.induct with
  | case1 t acc =>
    intro _ hex
    rw [splitGoF_nil]
    rcases hex with ⟨c, hc, _⟩ | ⟨c, hc, hg⟩
    · exact absurd hc (List.not_mem_nil c)
    · exact ⟨acc.reverse, List.mem_singleton.mpr rfl, c, List.mem_reverse.mpr hc, hg⟩
  | case2 fuel rest acc ih =>
    intro hlen hex
    have hlen' : rest.length ≤ fuel := by simp at hlen; omega
    rcases hex with ⟨c, hc, hg⟩ | ⟨c, hc, hg⟩
    · rcases List.mem_cons.mp hc with he | ht
      · subst he; exact absurd hg (by decide)
      · obtain ⟨part, hp, w⟩ := ih hlen' (Or.inl ⟨c, ht, hg⟩)
        exact ⟨part, List.mem_cons_of_mem _ hp, w⟩
    · exact ⟨acc.reverse, List.mem_cons_self _ _, c, List.mem_reverse.mpr hc, hg⟩
  | case3 fuel c1 c2 c3 rest acc hand ih =>
    intro hlen hex
    have hlen' : rest.length ≤ fuel := by simp at hlen; omega
    have hstep : splitGoF (fuel + 1) (' ' :: c1 :: c2 :: c3 :: ' ' :: rest) acc =
        acc.reverse :: splitGoF fuel rest [] := by
      simp only [splitGoF, if_pos hand]
    rcases hex with ⟨c, hc, hg⟩ | ⟨c, hc, hg⟩
    · simp only [List.mem_cons] at hc
      rcases hc with he | he | he | he | he | ht
      · subst he; exact absurd hg (by decide)
      · subst he; simp [goodChar, hand.1] at hg
      · subst he; simp [goodChar, hand.2.1] at hg
      · subst he; simp [goodChar, hand.2.2] at hg
      · subst he; exact absurd hg (by decide)
      · obtain ⟨part, hp, w⟩ := ih hlen' (Or.inl ⟨c, ht, hg⟩)
        rw [hstep]
        exact ⟨part, List.mem_cons_of_mem _ hp, w⟩
    · rw [hstep]
      exact ⟨acc.reverse, List.mem_cons_self _ _, c, List.mem_reverse.mpr hc, hg⟩
  | case4 fuel c1 c2 c3 rest acc hand ih =>
    intro hlen hex
    have hlen' : (c1 :: c2 :: c3 :: ' ' :: rest).length ≤ fuel := by simp at hlen ⊢; omega
    have hstep : splitGoF (fuel + 1) (' ' :: c1 :: c2 :: c3 :: ' ' :: rest) acc =
        splitGoF fuel (c1 :: c2 :: c3 :: ' ' :: rest) (' ' :: acc) := by
      simp only [splitGoF, if_neg hand]
    rw [hstep]
    rcases hex with ⟨c, hc, hg⟩ | ⟨c, hc, hg⟩
    · rcases List.mem_cons.mp hc with he | ht
      · subst he; exact absurd hg (by decide)
      · exact ih hlen' (Or.inl ⟨c, ht, hg⟩)
    · exact ih hlen' (Or.inr ⟨c, List.mem_cons_of_mem _ hc, hg⟩)
  | case5 fuel c rest acc hc1 hc2 ih =>
    intro hlen hex
    have hlen' : rest.length ≤ fuel := by simp at hlen; omega
    have hstep : splitGoF (fuel + 1) (c :: rest) acc = splitGoF fuel rest (c :: acc) := by
      simp only [splitGoF]
    rw [hstep]
    rcases hex with ⟨d, hd, hg⟩ | ⟨d, hd, hg⟩
    · rcases List.mem_cons.mp hd with he | ht
      · subst he; exact ih hlen' (Or.inr ⟨d, List.mem_cons_self _ _, hg⟩)
      · exact ih hlen' (Or.inl ⟨d, ht, hg⟩)
    · exact ih hlen' (Or.inr ⟨d, List.mem_cons_of_mem _ hd, hg⟩)
  | case6 cs acc hne =>
    intro hlen _
    exact absurd (List.length_eq_zero.mp (Nat.le_zero.mp hlen)) hne

/-- Trimming keeps every good character. -/
theorem mem_trimChars_of_good (cs : List Char) (c : Char) (hc : c ∈ cs)
    (hg : goodChar c = true) : c ∈ trimChars cs := by
  have hnw : isWsChar c = false := by
    cases hw : isWsChar c
    · rfl
    · simp [goodChar, hw] at hg
  unfold trimChars
  rw [List.mem_reverse]
  exact mem_dropWhile_of_neg _ _ _
    (List.mem_reverse.mpr (mem_dropWhile_of_neg _ _ _ hc hnw)) hnw

theorem string_mk_ne_empty (cs : List Char) (h : cs ≠ []) : String.mk cs ≠ "" := by
  intro he
  apply h
  have := congrArg String.data he
  exact this

/-- Items built from surviving (trimmed, non-empty) fragments have
non-negative quantity and non-empty text. -/
theorem parseOne_trim (cs : List Char) (hne : trimChars cs ≠ []) :
    0 ≤ (parseOne (trimChars cs)).qty ∧ (parseOne (trimChars cs)).text ≠ "" := by
  unfold parseOne
  cases hm : matchQty (trimChars cs) with
  | none =>
    exact ⟨by norm_num, string_mk_ne_empty _ hne⟩
  | some qt =>
    obtain ⟨h1, h2⟩ := matchQty_trim cs qt.1 qt.2 (by rw [hm])
    exact ⟨h1, string_mk_ne_empty _ h2⟩

/-! ## Claims about the segmenter -/

/-- Claim C4: segmenting the phrase 2 eggs and a banana yields exactly the two
items (2, eggs) then (1, banana) in that order, and segmenting the phrase
chicken breast with rice, which has no separators, yields one item of
quantity 1 whose text is the whole input. -/
theorem c4_segmentation_examples :
    parseItems "2 eggs and a banana" = [⟨2, "eggs"⟩, ⟨1, "banana"⟩] ∧
      parseItems "chicken breast with rice" = [⟨1, "chicken breast with rice"⟩] := by
  with_unfolding_all decide

/-- Claim C6 as stated is false: the input of one space character is a
non-empty string, yet the segmenter produces no items, because the only
fragment trims to the empty string and is dropped. -/
theorem c6_counterexample : (" " : String) ≠ "" ∧ parseItems " " = [] := by
  with_unfolding_all decide

/-- Claim C6, amended: the Query Segmenter produces a non-empty ordered
sequence of ItemDescriptors for every input string containing at least one
character that no separator or trim step can consume (not whitespace, not a
comma, not a letter of the word and in either case).  The original claim over
all non-empty inputs fails only at inputs without such a character, the
proved instance being the one-space string, which yields the empty
sequence. -/
theorem c6_amended (q : String) (h : ∃ c ∈ q.data, goodChar c = true) :
    parseItems q ≠ [] := by
  obtain ⟨c, hc, hg⟩ := h
  obtain ⟨part, hpart, d, hd, hdg⟩ :=
    splitGoF_good q.data.length q.data [] le_rfl (Or.inl ⟨c, hc, hg⟩)
  intro hnil
  unfold parseItems at hnil
  rw [List.map_eq_nil_iff] at hnil
  have hmem : trimChars part ∈ (splitChars q.data).map trimChars :=
    List.mem_map_of_mem _ hpart
  have hne : trimChars part ≠ [] := by
    intro he
    have hmem2 : d ∈ trimChars part := mem_trimChars_of_good part d hd hdg
    rw [he] at hmem2
    exact List.not_mem_nil d hmem2
  have hfil : trimChars part ∈ ((splitChars q.data).map trimChars).filter
      (fun f => !f.isEmpty) := by
    rw [List.mem_filter]
    exact ⟨hmem, by simpa using hne⟩
  rw [hnil] at hfil
  exact List.not_mem_nil _ hfil

theorem c6_witness :
    (∃ c ∈ ("rice" : String).data, goodChar c = true) ∧ parseItems "rice" ≠ [] :=
  ⟨by with_unfolding_all decide, c6_amended "rice" (by with_unfolding_all decide)⟩

/-- Claim C7 as stated is false: the input 0 eggs parses to an item whose
quantity is 0, which is not positive. -/
theorem c7_counterexample :
    parseItems "0 eggs" = [⟨0, "eggs"⟩] ∧ ¬ (0 : ℚ) < 0 := by
  constructor
  · with_unfolding_all decide
  · norm_num

/-- Claim C7, amended: every ItemDescriptor produced by the Query Segmenter
has a NON-NEGATIVE quantity (defaulting to 1 when no leading quantity token
is present, and zero exactly when the phrase spells a zero quantity such as
0 eggs) and a non-empty text. -/
theorem c7_amended (q : String) (it : Item) (h : it ∈ parseItems q) :
    0 ≤ it.qty ∧ it.text ≠ "" := by
  unfold parseItems at h
  rw [List.mem_map] at h
  obtain ⟨f, hf, hit⟩ := h
  rw [List.mem_filter] at hf
  obtain ⟨hfm, hfe⟩ := hf
  rw [List.mem_map] at hfm
  obtain ⟨raw, _, hfr⟩ := hfm
  subst hfr
  subst hit
  exact parseOne_trim raw (by simpa using hfe)

theorem c7_witness :
    (⟨2, "eggs"⟩ : Item) ∈ parseItems "2 eggs and a banana" ∧
      (0 ≤ (⟨2, "eggs"⟩ : Item).qty ∧ (⟨2, "eggs"⟩ : Item).text ≠ "") :=
  ⟨by with_unfolding_all decide,
    c7_amended "2 eggs and a banana" ⟨2, "eggs"⟩ (by with_unfolding_all decide)⟩

/-! ## Claims about the resolver -/

theorem searchFoodGo_transient_step (env : ℕ → Response) (a r : ℕ)
    (h : isTransient (env a) = true) :
    searchFoodGo env a (r + 1) =
      ((searchFoodGo env (a + 1) r).1, 300 :: (searchFoodGo env (a + 1) r).2) := by
  cases he : env a with
  | ok body => rw [he] at h; exact Bool.noConfusion h
  | httpError => simp only [searchFoodGo, he]
  | netError => simp only [searchFoodGo, he]

theorem searchFoodGo_transient_exhausted (env : ℕ → Response) (a : ℕ)
    (h : isTransient (env a) = true) :
    searchFoodGo env a 0 = (none, []) := by
  cases he : env a with
  | ok body => rw [he] at h; exact Bool.noConfusion h
  | httpError => simp only [searchFoodGo, he]
  | netError => simp only [searchFoodGo, he]

theorem searchFoodGo_all_transient (env : ℕ → Response) :
    ∀ (r a : ℕ), (∀ i, a ≤ i → i ≤ a + r → isTransient (env i) = true) →
      searchFoodGo env a r = (none, List.replicate r 300) := by
  intro r
  induction r with
  | zero =>
    intro a h
    exact searchFoodGo_transient_exhausted env a (h a le_rfl (by omega))
  | succ r ih =>
    intro a h
    rw [searchFoodGo_transient_step env a r (h a le_rfl (by omega)),
      ih (a + 1) (fun i h1 h2 => h i (by omega) (by omega))]
    rfl

theorem searchFoodGo_contentMiss (env : ℕ → Response) (a r : ℕ) (body : Body)
    (he : env a = Response.ok body) (hf : body.foods.getD [] = []) :
    searchFoodGo env a r = (none, []) := by
  cases r with
  | zero => simp only [searchFoodGo, he, hf]
  | succ r => simp only [searchFoodGo, he, hf]

/-- Claim C3: a non-success status or a thrown network error is retried after
a fixed 300 ms pause, up to the retry bound (default 2 retries, hence 3 total
tries), and yields not-found only once the bound is exhausted; a successful
response with zero candidate foods yields not-found immediately with no
further retry; and the not-found from exhausted retries is the same value as
the not-found from a content miss. -/
theorem c3_retry_policy :
    defaultRetries = 2 ∧
    (∀ env a r, isTransient (env a) = true →
      searchFoodGo env a (r + 1) =
        ((searchFoodGo env (a + 1) r).1, 300 :: (searchFoodGo env (a + 1) r).2) ∧
      searchFoodGo env a 0 = (none, [])) ∧
    (∀ env r, (∀ i, i ≤ r → isTransient (env i) = true) →
      searchFood env r = (none, List.replicate r 300)) ∧
    (∀ env a r body, env a = Response.ok body → body.foods.getD [] = [] →
      searchFoodGo env a r = (none, [])) ∧
    (∀ env env2 r r2 body2, (∀ i, i ≤ r → isTransient (env i) = true) →
      env2 0 = Response.ok body2 → body2.foods.getD [] = [] →
      (searchFood env r).1 = (searchFood env2 r2).1) := by
  refine ⟨rfl, ?_, ?_, ?_, ?_⟩
  · intro env a r h
    exact ⟨searchFoodGo_transient_step env a r h, searchFoodGo_transient_exhausted env a h⟩
  · intro env r h
    exact searchFoodGo_all_transient env r 0 (fun i _ h2 => h i (by omega))
  · intro env a r body he hf
    exact searchFoodGo_contentMiss env a r body he hf
  · intro env env2 r r2 body2 h he hf
    show (searchFoodGo env 0 r).1 = (searchFoodGo env2 0 r2).1
    rw [searchFoodGo_all_transient env r 0 (fun i _ h2 => h i (by omega)),
      searchFoodGo_contentMiss env2 0 r2 body2 he hf]

def envFailW : ℕ → Response := fun _ => Response.httpError

def envMissW : ℕ → Response := fun _ => Response.ok ⟨some []⟩

theorem c3_witness :
    (∀ i, i ≤ defaultRetries → isTransient (envFailW i) = true) ∧
    searchFood envFailW defaultRetries = (none, List.replicate defaultRetries 300) ∧
    (searchFood envFailW defaultRetries).1 = (searchFood envMissW 5).1 :=
  ⟨fun _ _ => rfl,
    c3_retry_policy.2.2.1 envFailW defaultRetries (fun _ _ => rfl),
    c3_retry_policy.2.2.2.2 envFailW envMissW defaultRetries 5 ⟨some []⟩
      (fun _ _ => rfl) rfl rfl⟩

/-- Claim C8: a transient failure on the first attempt followed by a success
on the second of the three allowed attempts returns the same NutrientResult
as the same successful response arriving on the first attempt. -/
theorem c8_retry_transparent (env env2 : ℕ → Response) (body : Body)
    (h0 : isTransient (env 0) = true) (h1 : env 1 = Response.ok body)
    (h2 : env2 0 = Response.ok body) :
    (searchFood env defaultRetries).1 = (searchFood env2 defaultRetries).1 := by
  show (searchFoodGo env 0 2).1 = (searchFoodGo env2 0 2).1
  rw [searchFoodGo_transient_step env 0 1 h0]
  simp only [searchFoodGo, h1, h2]

def eggBody : Body :=
  ⟨some [⟨"Egg", some [⟨"Energy", some 143⟩, ⟨"Protein", some 13⟩]⟩]⟩

def envRetryW : ℕ → Response := fun n => if n = 0 then Response.netError else Response.ok eggBody

def envOkW : ℕ → Response := fun _ => Response.ok eggBody

theorem c8_witness :
    isTransient (envRetryW 0) = true ∧ envRetryW 1 = Response.ok eggBody ∧
      envOkW 0 = Response.ok eggBody ∧
      (searchFood envRetryW defaultRetries).1 = (searchFood envOkW defaultRetries).1 :=
  ⟨rfl, rfl, rfl, c8_retry_transparent envRetryW envOkW eggBody rfl rfl rfl⟩

/-- Claim C9: a success-status response whose JSON body has no foods array is
treated exactly like a content miss: not-found immediately on that attempt,
no retry, no error. -/
theorem c9_missing_foods (env : ℕ → Response) (a r r2 : ℕ)
    (h : env a = Response.ok ⟨none⟩) :
    searchFoodGo env a r = (none, []) ∧
      searchFoodGo env a r = searchFoodGo (fun _ => Response.ok ⟨some []⟩) 0 r2 := by
  have h1 := searchFoodGo_contentMiss env a r ⟨none⟩ h rfl
  have h2 := searchFoodGo_contentMiss (fun _ => Response.ok ⟨some []⟩) 0 r2 ⟨some []⟩ rfl rfl
  exact ⟨h1, by rw [h1, h2]⟩

def envNoFoodsW : ℕ → Response := fun _ => Response.ok ⟨none⟩

theorem c9_witness :
    envNoFoodsW 0 = Response.ok ⟨none⟩ ∧
      (searchFoodGo envNoFoodsW 0 2 = (none, []) ∧
        searchFoodGo envNoFoodsW 0 2 = searchFoodGo (fun _ => Response.ok ⟨some []⟩) 0 3) :=
  ⟨rfl, c9_missing_foods envNoFoodsW 0 2 3 rfl⟩

/-! ## Claims about nutrient extraction -/

/-- Claim C5 as stated is false: with a candidate food whose Energy nutrient
is present with value 0 and whose Atwater variant has value 50, the code
returns 50 for calories even though Energy is present, because the JavaScript
chain `nutrients[k] || fallback` skips a stored value of 0 (falsy). -/
theorem c5_counterexample :
    buildNutrients [⟨"Energy", some 0⟩, ⟨"Energy (Atwater General Factors)", some 50⟩]
        "Energy" = some 0 ∧
      (extractFood ⟨"X", some [⟨"Energy", some 0⟩,
        ⟨"Energy (Atwater General Factors)", some 50⟩]⟩).calories = 50 ∧
      (50 : ℚ) ≠ 0 := by
  refine ⟨?_, ?_, by norm_num⟩ <;> with_unfolding_all decide

/-- Claim C5, amended: protein, carbs and fat are the map values of the
nutrients named Protein, Carbohydrate-by-difference and Total-lipid (zero
when the name is missing); calories is the value of Energy when that value is
present and NONZERO, else the value of the Atwater variant when present and
nonzero, else zero — a nonzero-first chain rather than a present-first
chain. -/
theorem c5_amended (food : Food) :
    (extractFood food).protein =
      (buildNutrients (food.foodNutrients.getD []) "Protein").getD 0 ∧
    (extractFood food).carbs =
      (buildNutrients (food.foodNutrients.getD []) "Carbohydrate, by difference").getD 0 ∧
    (extractFood food).fat =
      (buildNutrients (food.foodNutrients.getD []) "Total lipid (fat)").getD 0 ∧
    (∀ v, buildNutrients (food.foodNutrients.getD []) "Energy" = some v → v ≠ 0 →
      (extractFood food).calories = v) ∧
    (∀ w, (buildNutrients (food.foodNutrients.getD []) "Energy").getD 0 = 0 →
      buildNutrients (food.foodNutrients.getD []) "Energy (Atwater General Factors)" = some w →
      w ≠ 0 → (extractFood food).calories = w) ∧
    ((buildNutrients (food.foodNutrients.getD []) "Energy").getD 0 = 0 →
      (buildNutrients (food.foodNutrients.getD []) "Energy (Atwater General Factors)").getD 0
        = 0 → (extractFood food).calories = 0) := by
  simp only [extractFood]
  refine ⟨jsOrQ_getD _, jsOrQ_getD _, jsOrQ_getD _, ?_, ?_, ?_⟩
  · intro v hv hvne
    rw [hv]
    simp [jsOrQ, hvne]
  · intro w h0 hw hwne
    rw [hw]
    cases he : buildNutrients (food.foodNutrients.getD []) "Energy" with
    | none => simp [jsOrQ, hwne]
    | some v =>
      rw [he] at h0
      simp only [Option.getD_some] at h0
      subst h0
      simp [jsOrQ, hwne]
  · intro h0 h1
    cases he : buildNutrients (food.foodNutrients.getD []) "Energy" with
    | none =>
      cases ha : buildNutrients (food.foodNutrients.getD [])
          "Energy (Atwater General Factors)" with
      | none => simp [jsOrQ]
      | some w =>
        rw [ha] at h1
        simp only [Option.getD_some] at h1
        subst h1
        simp [jsOrQ]
    | some v =>
      rw [he] at h0
      simp only [Option.getD_some] at h0
      subst h0
      cases ha : buildNutrients (food.foodNutrients.getD [])
          "Energy (Atwater General Factors)" with
      | none => simp [jsOrQ]
      | some w =>
        rw [ha] at h1
        simp only [Option.getD_some] at h1
        subst h1
        simp [jsOrQ]

def food5w : Food := ⟨"Y", some [⟨"Energy", some 7⟩, ⟨"Protein", some 3⟩]⟩

theorem c5_witness :
    buildNutrients (food5w.foodNutrients.getD []) "Energy" = some 7 ∧ (7 : ℚ) ≠ 0 ∧
      (extractFood food5w).calories = 7 :=
  ⟨by with_unfolding_all decide, by norm_num,
    (c5_amended food5w).2.2.2.1 7 (by with_unfolding_all decide) (by norm_num)⟩

/-- Claim C10 as stated is false for the calories field: with nutrients
Energy 100, then Energy 0, then Atwater 50, the map does hold the last Energy
value 0, but the calories field comes out 50, not the last Energy value,
because a zero map value falls through the nonzero-first chain. -/
theorem c10_counterexample :
    lastValue [⟨"Energy", some 100⟩, ⟨"Energy", some 0⟩,
        ⟨"Energy (Atwater General Factors)", some 50⟩] "Energy" = some 0 ∧
      (extractFood ⟨"X", some [⟨"Energy", some 100⟩, ⟨"Energy", some 0⟩,
        ⟨"Energy (Atwater General Factors)", some 50⟩]⟩).calories = 50 ∧
      (50 : ℚ) ≠ (0 : ℚ) := by
  refine ⟨?_, ?_, by norm_num⟩ <;> with_unfolding_all decide

/-- Claim C10, amended: later entries do overwrite earlier ones in the
name-to-value map, so the map holds, for every name, the (falsy-coerced)
value of the last entry with that name; the protein, carbs and fat fields use
that value directly, and the calories field uses it through the nonzero-first
Energy/Atwater chain (so a last Energy value of zero defers to the Atwater
variant). -/
theorem c10_amended :
    (∀ ns k, buildNutrients ns k = lastValue ns k) ∧
    (∀ (pre : List Nutrient) (n : Nutrient),
      buildNutrients (pre ++ [n]) n.nutrientName = some (n.value.getD 0)) ∧
    (∀ (food : Food) (pre : List Nutrient) (v : Option ℚ),
      food.foodNutrients = some (pre ++ [⟨"Protein", v⟩]) →
      (extractFood food).protein = v.getD 0) ∧
    (∀ (food : Food) (pre : List Nutrient) (v : Option ℚ),
      food.foodNutrients = some (pre ++ [⟨"Carbohydrate, by difference", v⟩]) →
      (extractFood food).carbs = v.getD 0) ∧
    (∀ (food : Food) (pre : List Nutrient) (v : Option ℚ),
      food.foodNutrients = some (pre ++ [⟨"Total lipid (fat)", v⟩]) →
      (extractFood food).fat = v.getD 0) ∧
    (∀ (food : Food) (pre : List Nutrient) (v : Option ℚ),
      food.foodNutrients = some (pre ++ [⟨"Energy", v⟩]) → v.getD 0 ≠ 0 →
      (extractFood food).calories = v.getD 0) := by
  have hlast : ∀ (pre : List Nutrient) (n : Nutrient),
      buildNutrients (pre ++ [n]) n.nutrientName = some (n.value.getD 0) := by
    intro pre n
    rw [buildNutrients_eq_lastValue, lastValue_append_singleton, if_pos rfl]
  refine ⟨buildNutrients_eq_lastValue, hlast, ?_, ?_, ?_, ?_⟩
  · intro food pre v hf
    have h1 : (extractFood food).protein =
        (buildNutrients (food.foodNutrients.getD []) "Protein").getD 0 := by
      simp only [extractFood]
      exact jsOrQ_getD _
    rw [h1, hf, Option.getD_some, hlast pre ⟨"Protein", v⟩, Option.getD_some]
  · intro food pre v hf
    have h1 : (extractFood food).carbs =
        (buildNutrients (food.foodNutrients.getD []) "Carbohydrate, by difference").getD 0 := by
      simp only [extractFood]
      exact jsOrQ_getD _
    rw [h1, hf, Option.getD_some, hlast pre ⟨"Carbohydrate, by difference", v⟩, Option.getD_some]
  · intro food pre v hf
    have h1 : (extractFood food).fat =
        (buildNutrients (food.foodNutrients.getD []) "Total lipid (fat)").getD 0 := by
      simp only [extractFood]
      exact jsOrQ_getD _
    rw [h1, hf, Option.getD_some, hlast pre ⟨"Total lipid (fat)", v⟩, Option.getD_some]
  · intro food pre v hf hvne
    simp only [extractFood]
    rw [hf, Option.getD_some, hlast pre ⟨"Energy", v⟩]
    simp [jsOrQ, hvne]

def food10w : Food := ⟨"Y", some [⟨"Protein", some 2⟩, ⟨"Protein", some 9⟩]⟩

theorem c10_witness :
    food10w.foodNutrients = some ([⟨"Protein", some 2⟩] ++ [(⟨"Protein", some 9⟩ : Nutrient)]) ∧
      (extractFood food10w).protein = (some (9 : ℚ)).getD 0 :=
  ⟨rfl, c10_amended.2.2.1 food10w [⟨"Protein", some 2⟩] (some 9) rfl⟩

/-! ## Claims about the aggregating handler -/

theorem anyResolved_iff_foundNames (resolve : ℕ → String → Option NutrientResult)
    (items : List Item) :
    anyResolved resolve items ↔ foundNames resolve 0 items ≠ [] := by
  unfold anyResolved
  rw [enum_eq_enumFrom]
  constructor
  · rintro ⟨p, hp, hs⟩ hnil
    have hz := (foundNames_eq_nil_iff resolve items 0).mp hnil p hp
    rw [hz] at hs
    exact Bool.noConfusion hs
  · intro hne
    by_contra hno
    push_neg at hno
    apply hne
    apply (foundNames_eq_nil_iff resolve items 0).mpr
    intro p hp
    have hns := hno p hp
    cases hr : resolve p.1 p.2.text with
    | none => rfl
    | some r => rw [hr] at hns; exact absurd rfl hns

theorem missingFrom_ne_nil_iff (resolve : ℕ → String → Option NutrientResult)
    (items : List Item) :
    missingFrom resolve 0 items ≠ [] ↔ ¬ allResolved resolve items := by
  rw [missingFrom_eq resolve items 0]
  unfold allResolved
  rw [enum_eq_enumFrom]
  constructor
  · intro hne hall
    apply hne
    rw [List.map_eq_nil_iff, List.filter_eq_nil_iff]
    intro p hp
    have hs := hall p hp
    cases hr : resolve p.1 p.2.text with
    | none => rw [hr] at hs; exact Bool.noConfusion hs
    | some r => simp
  · intro hnall hnil
    apply hnall
    intro p hp
    rw [List.map_eq_nil_iff, List.filter_eq_nil_iff] at hnil
    have hz := hnil p hp
    cases hr : resolve p.1 p.2.text with
    | none => rw [hr] at hz; simp at hz
    | some r => simp

/-- The handler, expressed through the reference accumulations. -/
theorem handle_eq (q : String) (resolve : ℕ → String → Option NutrientResult) :
    handle q resolve =
      if foundNames resolve 0 (parseItems q) = [] then
        AggResponse.failure ("No results for \x27" ++ q ++ "\x27")
      else
        AggResponse.success
          (String.intercalate ", " (foundNames resolve 0 (parseItems q)))
          (jsRound (sumF resolve (fun r => r.calories) 0 (parseItems q)))
          (jsRound (sumF resolve (fun r => r.protein) 0 (parseItems q)))
          (jsRound (sumF resolve (fun r => r.carbs) 0 (parseItems q)))
          (jsRound (sumF resolve (fun r => r.fat) 0 (parseItems q)))
          (!(missingFrom resolve 0 (parseItems q)).isEmpty)
          (missingFrom resolve 0 (parseItems q)) := by
  simp only [handle]
  rw [runItems_eq]
  simp only [List.nil_append, zero_add]
  by_cases hfd : foundNames resolve 0 (parseItems q) = []
  · simp [hfd]
  · simp [hfd, List.isEmpty_iff]

/-- Claim C1: whenever at least one item of the parsed phrase resolves, the
four returned nutrient fields are exactly the rounding, performed once at
the final aggregate step and never per item, of the exact sum over the items
that resolved of quantity times the per-unit field value. -/
theorem c1_weighted_sum_rounded_once (q : String)
    (resolve : ℕ → String → Option NutrientResult)
    (h : anyResolved resolve (parseItems q)) :
    (handle q resolve).calories? =
      some (jsRound (resolvedContribs resolve (parseItems q) (fun r => r.calories)).sum) ∧
    (handle q resolve).protein? =
      some (jsRound (resolvedContribs resolve (parseItems q) (fun r => r.protein)).sum) ∧
    (handle q resolve).carbs? =
      some (jsRound (resolvedContribs resolve (parseItems q) (fun r => r.carbs)).sum) ∧
    (handle q resolve).fat? =
      some (jsRound (resolvedContribs resolve (parseItems q) (fun r => r.fat)).sum) := by
  have hne := (anyResolved_iff_foundNames resolve (parseItems q)).mp h
  rw [handle_eq, if_neg hne]
  refine ⟨?_, ?_, ?_, ?_⟩
  · simp only [AggResponse.calories?]
    rw [sumF_eq]
    rfl
  · simp only [AggResponse.protein?]
    rw [sumF_eq]
    rfl
  · simp only [AggResponse.carbs?]
    rw [sumF_eq]
    rfl
  · simp only [AggResponse.fat?]
    rw [sumF_eq]
    rfl

/-- The resolver used by the concrete handler evaluations: eggs resolve to a
fixed food, everything else misses. -/
def demoResolve : ℕ → String → Option NutrientResult :=
  fun _ t => if t = "eggs" then some ⟨"Egg", 143, 13, 1, 10⟩ else none

theorem c1_witness :
    anyResolved demoResolve (parseItems "2 eggs and a banana") ∧
    ((handle "2 eggs and a banana" demoResolve).calories? =
        some (jsRound (resolvedContribs demoResolve (parseItems "2 eggs and a banana")
          (fun r => r.calories)).sum) ∧
      (handle "2 eggs and a banana" demoResolve).protein? =
        some (jsRound (resolvedContribs demoResolve (parseItems "2 eggs and a banana")
          (fun r => r.protein)).sum) ∧
      (handle "2 eggs and a banana" demoResolve).carbs? =
        some (jsRound (resolvedContribs demoResolve (parseItems "2 eggs and a banana")
          (fun r => r.carbs)).sum) ∧
      (handle "2 eggs and a banana" demoResolve).fat? =
        some (jsRound (resolvedContribs demoResolve (parseItems "2 eggs and a banana")
          (fun r => r.fat)).sum)) :=
  ⟨by with_unfolding_all decide,
    c1_weighted_sum_rounded_once "2 eggs and a banana" demoResolve
      (by with_unfolding_all decide)⟩

/-- Claim C2: the outcome has found true exactly when at least one item
resolved; when some item resolved, the missing list is exactly the original
texts of the unresolved items in original order; and the partial flag is true
exactly when at least one but not all items resolved. -/
theorem c2_found_partial_missing (q : String)
    (resolve : ℕ → String → Option NutrientResult) :
    ((handle q resolve).found = true ↔ anyResolved resolve (parseItems q)) ∧
    (anyResolved resolve (parseItems q) →
      (handle q resolve).missing? = some (missingTexts resolve (parseItems q))) ∧
    ((handle q resolve).partialFlag? = some true ↔
      (anyResolved resolve (parseItems q) ∧ ¬ allResolved resolve (parseItems q))) := by
  rw [handle_eq]
  by_cases hfd : foundNames resolve 0 (parseItems q) = []
  · have hnr : ¬ anyResolved resolve (parseItems q) := by
      rw [anyResolved_iff_foundNames]
      intro hne
      exact hne hfd
    rw [if_pos hfd]
    refine ⟨?_, ?_, ?_⟩
    · simp [AggResponse.found, hnr]
    · intro ha
      exact absurd ha hnr
    · simp [AggResponse.partialFlag?, hnr]
  · have hr : anyResolved resolve (parseItems q) :=
      (anyResolved_iff_foundNames _ _).mpr hfd
    rw [if_neg hfd]
    refine ⟨?_, ?_, ?_⟩
    · simp [AggResponse.found, hr]
    · intro _
      simp only [AggResponse.missing?, Option.some.injEq]
      rw [missingFrom_eq]
      rfl
    · simp only [AggResponse.partialFlag?, Option.some.injEq]
      constructor
      · intro hb
        have hne : missingFrom resolve 0 (parseItems q) ≠ [] := by
          intro he
          rw [he] at hb
          exact Bool.noConfusion hb
        exact ⟨hr, (missingFrom_ne_nil_iff _ _).mp hne⟩
      · rintro ⟨_, hnall⟩
        have hne := (missingFrom_ne_nil_iff _ _).mpr hnall
        simp [List.isEmpty_eq_false.mpr hne]

theorem c2_witness :
    anyResolved demoResolve (parseItems "2 eggs and a banana") ∧
    (handle "2 eggs and a banana" demoResolve).missing? =
      some (missingTexts demoResolve (parseItems "2 eggs and a banana")) ∧
    ((handle "2 eggs and a banana" demoResolve).found = true ↔
      anyResolved demoResolve (parseItems "2 eggs and a banana")) :=
  ⟨by with_unfolding_all decide,
    (c2_found_partial_missing "2 eggs and a banana" demoResolve).2.1
      (by with_unfolding_all decide),
    (c2_found_partial_missing "2 eggs and a banana" demoResolve).1⟩
